import Mathlib

/-!
Verification of the PNG-filter image compressor (png_tools / png_compressors).

Part 1 embeds the source files as Lean definitions:
  - png_tools/png_filters.py        (filters, paethPredictor, choose_filter)
  - png_compressors/core_encoder.py (CoreEncoder, CoreDecoder)
  - png_compressors/filtered_zlib.py
  - png_compressors/lz_arithmetic.py
  - png_compressors/filtered_lz_arithmetic.py
  - png_compressors/filtered_arithmetic.py
Library pieces the repository imports from the Stanford compression library
(bit utilities, Elias delta coder, adaptive frequency models, the arithmetic
range coder, DataBlock helpers) are not part of the repository sources, so
they are modelled from the specification; each such definition carries a
doc comment starting with: Modelled from the spec.

Integers follow Python semantics: `%` on Int is Int.emod (result has the
sign of the divisor, as in Python) and floor division is written so that it
agrees with np.floor of the real quotient.

Part 2 states and proves the claims.
-/

namespace PngFilters

/-- png_filters.none: returns the same scanline, filter type 0. -/
def none (scanline : List Int) : List Int × Int :=
  (scanline, 0)

/-- png_filters.sub: residual of the Sub filter (type 1).
Index 0 keeps the raw byte, later indices are the difference with the
left neighbour mod 256. -/
def sub (scanline : List Int) : List Int × Int :=
  ((List.range scanline.length).map fun i =>
    if i = 0 then scanline.getD 0 0
    else (scanline.getD i 0 - scanline.getD (i - 1) 0) % 256, 1)

/-- png_filters.up: residual of the Up filter (type 2). -/
def up (curr_scanline prev_scanline : List Int) : List Int × Int :=
  ((List.range curr_scanline.length).map fun i =>
    (curr_scanline.getD i 0 - prev_scanline.getD i 0) % 256, 2)

/-- png_filters.average: residual of the Average filter (type 3).
np.floor of the halved sum is floor division by 2. -/
def average (curr_scanline prev_scanline : List Int) : List Int × Int :=
  ((List.range curr_scanline.length).map fun i =>
    if i = 0 then
      (curr_scanline.getD 0 0 - prev_scanline.getD 0 0 / 2) % 256
    else
      (curr_scanline.getD i 0 -
        (prev_scanline.getD i 0 + curr_scanline.getD (i - 1) 0) / 2) % 256, 3)

/-- png_filters.paethPredictor. -/
def paethPredictor (left upper upper_left : Int) : Int :=
  let p := left + upper - upper_left
  let p_left := |p - left|
  let p_upper := |p - upper|
  let p_upper_left := |p - upper_left|
  if p_left ≤ p_upper ∧ p_left ≤ p_upper_left then left
  else if p_upper ≤ p_upper_left then upper
  else upper_left

/-- png_filters.paeth: residual of the Paeth filter (type 4). -/
def paeth (curr_scanline prev_scanline : List Int) : List Int × Int :=
  ((List.range curr_scanline.length).map fun i =>
    if i = 0 then
      (curr_scanline.getD 0 0 -
        paethPredictor 0 (prev_scanline.getD 0 0) 0) % 256
    else
      (curr_scanline.getD i 0 -
        paethPredictor (curr_scanline.getD (i - 1) 0)
          (prev_scanline.getD i 0) (prev_scanline.getD (i - 1) 0)) % 256, 4)

/-- Stage of choose_filter after the Average candidate was examined
(running best (t, f, s)): the source checks the running smallest sum for
zero, then tries paeth(), the last candidate, and returns the best pair. -/
def afterAvg (t : Int) (f : List Int) (s : Int) (curr prev : List Int) :
    Int × List Int :=
  if s = 0 then (t, f) else
  let r := (paeth curr prev).1
  if r.sum < s then (4, r) else (t, f)

/-- Stage of choose_filter after the Up candidate: zero check, then
average(). -/
def afterUp (t : Int) (f : List Int) (s : Int) (curr prev : List Int) :
    Int × List Int :=
  if s = 0 then (t, f) else
  let r := (average curr prev).1
  if r.sum < s then afterAvg 3 r r.sum curr prev
  else afterAvg t f s curr prev

/-- Stage of choose_filter after the Sub candidate: zero check, then
up(). -/
def afterSub (t : Int) (f : List Int) (s : Int) (curr prev : List Int) :
    Int × List Int :=
  if s = 0 then (t, f) else
  let r := (up curr prev).1
  if r.sum < s then afterUp 2 r r.sum curr prev else afterUp t f s curr prev

/-- png_filters.choose_filter: returns (filter_type, filtered scanline).
Mirrors the source: start with the None candidate, short-circuit when the
running smallest sum is zero, replace the best candidate only on a strictly
smaller residual sum, trying sub, up, average, paeth in that order. -/
def choose_filter (curr prev : List Int) : Int × List Int :=
  if curr.sum = 0 then (0, curr) else
  let r := (sub curr).1
  if r.sum < curr.sum then afterSub 1 r r.sum curr prev
  else afterSub 0 curr curr.sum curr prev

end PngFilters

namespace CoreEncoder

/-- CoreEncoder._channelify (core_encoder.py lines 41 to 68); the method of
FilteredZlib (filtered_zlib.py lines 42 to 69) is verbatim identical.
The while loop collects the slices data[i * cs : (i + 1) * cs] for every i
with (i + 1) * cs less or equal len(data), that is len(data) / cs complete
chunks; then the 3-to-4-channel sanity check raises ValueError.
The model is stated for 0 < w * h: with w * h = 0 the source loop never
terminates, while the formula below returns the empty chunk list. -/
def channelify (w h : Nat) (data : List Int) :
    Except String (List (List Int)) :=
  let chunk_size := w * h
  let chunks := (List.range (data.length / chunk_size)).map fun i =>
    (data.drop (i * chunk_size)).take chunk_size
  if chunks.length < 3 ∨ 4 < chunks.length then
    Except.error "Expected only 3 - 4 channels"
  else
    Except.ok chunks

/-- CoreEncoder._filter_channel (core_encoder.py lines 70 to 99): reshape the
channel into h scanlines of w bytes, choose a filter per scanline with
prev = zeros for the first scanline and the previous original scanline
otherwise, and return (filter_types, flattened filtered scanlines). -/
def filter_channel (w h : Nat) (channel : List Int) : List Int × List Int :=
  let row := fun r => (channel.drop (r * w)).take w
  let pairs := (List.range h).map fun i =>
    PngFilters.choose_filter (row i)
      (if i = 0 then List.replicate w 0 else row (i - 1))
  (pairs.map Prod.fst, (pairs.map Prod.snd).flatten)

/-- CoreEncoder._filter_channels (core_encoder.py lines 101 to 123): for each
channel, each filtered scanline is prepended with its filter type; the
resulting h-by-(w+1) blocks are flattened in channel order. -/
def filter_channels (w h : Nat) (chunks : List (List Int)) : List Int :=
  (chunks.map fun chunk =>
    let p := filter_channel w h chunk
    ((List.range h).map fun r =>
      p.1.getD r 0 :: ((p.2.drop (r * w)).take w)).flatten).flatten

end CoreEncoder

namespace CoreDecoder

/-- CoreDecoder._reverse_filter_channels (core_encoder.py lines 156 to 169):
the body is a TODO stub that ignores its input and returns the empty list. -/
def reverse_filter_channels (data : List Int) : List Int :=
  []

end CoreDecoder

namespace FilteredZlib

/-- FilteredZlib._filter_channels (filtered_zlib.py lines 71 to 95). Note the
condition on the previous scanline: the source computes
prev = np.zeros(width) if r > 0 else shaped_chunk[r - 1],
so every row after the first gets an all-zeros prev, and row 0 gets
shaped_chunk[-1], which by Python negative indexing is the LAST row of the
channel. -/
def filter_channels (w h : Nat) (chunks : List (List Int)) : List Int :=
  (chunks.map fun chunk =>
    let row := fun r => (chunk.drop (r * w)).take w
    ((List.range h).map fun r =>
      let prev := if 0 < r then List.replicate w (0 : Int) else row (h - 1)
      let p := PngFilters.choose_filter (row r) prev
      p.1 :: p.2).flatten).flatten

end FilteredZlib

namespace Scl

/-- Modelled from the spec: utils.bitarray_utils.uint_to_bitarray, absent
from src; big-endian fixed-width bit encoding of an unsigned integer (§6:
all multi-byte integer side-information fields are big-endian). -/
def uint_to_bitarray (n width : Nat) : List Bool :=
  (List.range width).map fun i => n.testBit (width - 1 - i)

/-- Modelled from the spec: utils.bitarray_utils.bitarray_to_uint, absent
from src; the big-endian read inverse to uint_to_bitarray. -/
def bitarray_to_uint (bits : List Bool) : Nat :=
  bits.foldl (fun a b => 2 * a + cond b 1 0) 0

/-- Fuel-indexed bit length; fuel 64 covers every value that occurs in a
bitstream here (alphabet symbols and counts are far below 2^64). -/
def bitLenAux : Nat → Nat → Nat
  | 0, _ => 0
  | fuel + 1, n => if n = 0 then 0 else bitLenAux fuel (n / 2) + 1

/-- ⌊log2 n⌋ + 1 for n ≥ 1 (and 0 at 0). -/
def bitLen (n : Nat) : Nat := bitLenAux 64 n

/-- Modelled from the spec (§4.6): Elias delta code of n, defined for
n ≥ 1: with k = ⌊log2 n⌋ + 1 and m = ⌊log2 k⌋ + 1, emit m − 1 zero bits,
the m-bit binary representation of k, then the low k − 1 bits of n. -/
def eliasDelta (n : Nat) : List Bool :=
  let k := bitLen n
  let m := bitLen k
  List.replicate (m - 1) false ++ uint_to_bitarray k m ++
    uint_to_bitarray n (k - 1)

/-- Modelled from the spec: compressors.elias_delta_uint_coder
EliasDeltaUintEncoder.encode_block, absent from src. §4.6 defines the code
for n ≥ 1 while the transmitted alphabets may contain 0, so each value v is
transmitted as the code of v + 1, keeping the §4.6 contract (lossless,
restartable, each integer independent). -/
def eliasDeltaEncodeBlock (vals : List Int) : List Bool :=
  (vals.map fun v => eliasDelta (v + 1).toNat).flatten

/-- Modelled from the spec (§4.6): decode one Elias delta integer; returns
the value and the number of bits consumed, or none on truncated input. -/
def eliasDeltaDecode (bits : List Bool) : Option (Nat × Nat) :=
  let zeros := (bits.takeWhile fun b => b = false).length
  let m := zeros + 1
  if zeros + m ≤ bits.length then
    let k := bitarray_to_uint ((bits.drop zeros).take m)
    if zeros + m + (k - 1) ≤ bits.length then
      some (2 ^ (k - 1) +
        bitarray_to_uint ((bits.drop (zeros + m)).take (k - 1)),
        zeros + m + (k - 1))
    else Option.none
  else Option.none

/-- Fuel-indexed loop of eliasDeltaDecodeBlock; every decoded integer
consumes at least one bit, so fuel = length + 1 always suffices. -/
def eliasDeltaDecodeBlockAux : Nat → List Bool → Option (List Nat × Nat)
  | 0, bits => if bits.isEmpty then some ([], 0) else Option.none
  | fuel + 1, bits =>
    if bits.isEmpty then some ([], 0) else
    match eliasDeltaDecode bits with
    | Option.none => Option.none
    | some (v, c) =>
      match eliasDeltaDecodeBlockAux fuel (bits.drop c) with
      | Option.none => Option.none
      | some (vs, c2) => some (v :: vs, c + c2)

/-- Modelled from the spec: EliasDeltaUintDecoder.decode_block, absent from
src; decodes values until the input is exhausted, undoing the shift by one,
and reports the number of bits consumed. -/
def eliasDeltaDecodeBlock (bits : List Bool) : Option (List Int × Nat) :=
  match eliasDeltaDecodeBlockAux (bits.length + 1) bits with
  | Option.none => Option.none
  | some (vs, c) => some (vs.map fun v => (v : Int) - 1, c)

/-- Modelled from the spec (§4.2): state of an adaptive frequency model:
alphabet (order preserved), context order k, a sparse table from k-tuple
contexts to per-symbol count vectors (absent contexts hold the all-ones
vector), and the sliding window of the last k observed symbols
(compressors.probability_models, absent from src). -/
structure FreqModel where
  alphabet : List Int
  k : Nat
  table : List (List Int × List Nat)
  window : List Int

/-- Coder-imposed cap on the total count of a context (§4.2, §4.3:
MAX_TOTAL ≤ 2^(P−2)). -/
def MAX_TOTAL : Nat := 2 ^ 16

/-- Modelled from the spec (§4.2): the count vector of a context; every
count starts at 1 so each symbol has nonzero probability. -/
def FreqModel.counts (m : FreqModel) (ctx : List Int) : List Nat :=
  match m.table.find? fun e => e.1 == ctx with
  | some e => e.2
  | Option.none => List.replicate m.alphabet.length 1

/-- Modelled from the spec (§4.2): cumulative_lo, cumulative_hi and total
for a symbol in the current context, in alphabet order. -/
def FreqModel.cumRange (m : FreqModel) (s : Int) : Nat × Nat × Nat :=
  let counts := m.counts m.window
  let i := m.alphabet.findIdx fun a => a == s
  let lo := (counts.take i).sum
  (lo, lo + counts.getD i 0, counts.sum)

/-- Modelled from the spec (§4.2): update after observing s: increment the
count of s in the current context, halve every count rounding up (keeping
counts ≥ 1) when the total exceeds MAX_TOTAL, then slide the window. -/
def FreqModel.update (m : FreqModel) (s : Int) : FreqModel :=
  let ctx := m.window
  let counts := m.counts ctx
  let i := m.alphabet.findIdx fun a => a == s
  let bumped := counts.set i (counts.getD i 0 + 1)
  let rescaled := if MAX_TOTAL < bumped.sum
    then bumped.map fun c => (c + 1) / 2 else bumped
  let table :=
    if (m.table.find? fun e => e.1 == ctx).isSome then
      m.table.map fun e => if e.1 == ctx then (e.1, rescaled) else e
    else (ctx, rescaled) :: m.table
  let w := m.window ++ [s]
  { alphabet := m.alphabet, k := m.k, table := table,
    window := w.drop (w.length - m.k) }

/-- Modelled from the spec (§4.2): fresh adaptive order-K model, all counts
1; the initial window holds k copies of the first alphabet symbol. -/
def adaptiveOrderK (alphabet : List Int) (k : Nat) : FreqModel :=
  { alphabet := alphabet, k := k, table := [],
    window := List.replicate k (alphabet.getD 0 0) }

/-- Modelled from the spec (§4.2): adaptive IID model with a caller-supplied
initial count vector (core.prob_dist.Frequencies fed to
AdaptiveIIDFreqModel, absent from src). -/
def adaptiveIID (alphabet : List Int) (initCounts : List Nat) : FreqModel :=
  { alphabet := alphabet, k := 0, table := [([], initCounts)], window := [] }

/-- Distinct values of a list (order irrelevant, used under sorting). -/
def dedupInts : List Int → List Int
  | [] => []
  | x :: xs => let r := dedupInts xs; if x ∈ r then r else x :: r

/-- Insertion into a sorted list. -/
def insertSorted (x : Int) : List Int → List Int
  | [] => [x]
  | y :: ys => if x ≤ y then x :: y :: ys else y :: insertSorted x ys

/-- Modelled from the spec (§4.5): core.data_block.DataBlock.get_alphabet,
absent from src; the derived alphabet of a stream is the sorted set of
distinct values appearing in it. -/
def getAlphabet (l : List Int) : List Int :=
  (dedupInts l).foldr insertSorted []

/-- Modelled from the spec: DataBlock.get_counts, absent from src, as a
vector of multiplicities in alphabet order. -/
def getCountsList (l : List Int) : List Nat :=
  (getAlphabet l).map fun a => l.count a

/-- 2^32: the coder works with 32-bit precision (§4.3, P = 32). -/
def FULL : Nat := 2 ^ 32

/-- 2^31. -/
def HALF : Nat := 2 ^ 31

/-- 2^30. -/
def QUARTER : Nat := 2 ^ 30

/-- Arithmetic encoder register state (§4.3): the interval, the pending
underflow bit counter and the bits emitted so far. -/
structure EncState where
  low : Nat
  high : Nat
  pending : Nat
  out : List Bool

/-- A bit followed by a number of opposite bits (§4.3 step 3). -/
def emitBit (b : Bool) (pending : Nat) : List Bool :=
  b :: List.replicate pending (!b)

/-- Modelled from the spec (§4.3 steps 3 and 4): the encoder rescaling
loop. The fuel bounds the number of doublings; 64 is more than the 32-bit
precision ever needs. -/
def encScale : Nat → EncState → EncState
  | 0, st => st
  | fuel + 1, st =>
    if st.high < HALF then
      encScale fuel
        ⟨2 * st.low, 2 * st.high + 1, 0, st.out ++ emitBit false st.pending⟩
    else if HALF ≤ st.low then
      encScale fuel
        ⟨2 * (st.low - HALF), 2 * (st.high - HALF) + 1, 0,
          st.out ++ emitBit true st.pending⟩
    else if QUARTER ≤ st.low ∧ st.high < HALF + QUARTER then
      encScale fuel
        ⟨2 * (st.low - QUARTER), 2 * (st.high - QUARTER) + 1,
          st.pending + 1, st.out⟩
    else st

/-- Modelled from the spec (§4.3 steps 1, 2 and 5): encode one symbol. -/
def encSymbol (st : EncState × FreqModel) (s : Int) : EncState × FreqModel :=
  let c := st.2.cumRange s
  let range := st.1.high - st.1.low + 1
  (encScale 64
    ⟨st.1.low + range * c.1 / c.2.2,
      st.1.low + range * c.2.1 / c.2.2 - 1, st.1.pending, st.1.out⟩,
    st.2.update s)

/-- Modelled from the spec (§4.3): ArithmeticEncoder.encode_block, absent
from src: a 32-bit big-endian symbol count (the decoder must know how many
symbols to decode; §4.5 recovers the stream length from the decoded block),
the per-symbol encoding loop, then the termination: one more bit followed
by pending + 1 opposite bits. §4.3 requires the terminated stream to land
uniquely inside [low, high); at loop exit low < HALF ≤ high, so the bit is
1 exactly when QUARTER ≤ low (the denoted value HALF, or just below HALF
when the bit is 0, then lies in the interval). -/
def arithEncodeBlock (m : FreqModel) (data : List Int) : List Bool :=
  let r := data.foldl encSymbol (⟨0, FULL - 1, 0, []⟩, m)
  uint_to_bitarray data.length 32 ++ r.1.out ++
    emitBit (decide (QUARTER ≤ r.1.low)) (r.1.pending + 1)

/-- Arithmetic decoder register state (§4.3): interval, code register, and
the index of the next payload bit to read. -/
structure DecState where
  low : Nat
  high : Nat
  code : Nat
  pos : Nat

/-- Payload bit as 0 or 1; bits past the end are read as 0. -/
def readBit (payload : List Bool) (i : Nat) : Nat :=
  cond (payload.getD i false) 1 0

/-- Modelled from the spec (§4.3): the mirror rescaling loop of the
decoder. -/
def decScale (payload : List Bool) : Nat → DecState → DecState
  | 0, st => st
  | fuel + 1, st =>
    if st.high < HALF then
      decScale payload fuel
        ⟨2 * st.low, 2 * st.high + 1,
          2 * st.code + readBit payload st.pos, st.pos + 1⟩
    else if HALF ≤ st.low then
      decScale payload fuel
        ⟨2 * (st.low - HALF), 2 * (st.high - HALF) + 1,
          2 * (st.code - HALF) + readBit payload st.pos, st.pos + 1⟩
    else if QUARTER ≤ st.low ∧ st.high < HALF + QUARTER then
      decScale payload fuel
        ⟨2 * (st.low - QUARTER), 2 * (st.high - QUARTER) + 1,
          2 * (st.code - QUARTER) + readBit payload st.pos, st.pos + 1⟩
    else st

/-- First symbol (in alphabet order) whose cumulative count interval
contains the target. -/
def findSym : List Int → List Nat → Nat → Option Int
  | a :: as, c :: cs, t => if t < c then some a else findSym as cs (t - c)
  | _, _, _ => Option.none

/-- Modelled from the spec (§4.3): decode one symbol: find the unique
symbol whose cumulative range contains ((code − low + 1)·total − 1) /
range, mirror the interval update, update the model and rescale; none when
no symbol matches (zero-probability self-check). -/
def decSymbol (payload : List Bool) (st : DecState × FreqModel) :
    Option (Int × DecState × FreqModel) :=
  let counts := st.2.counts st.2.window
  let total := counts.sum
  let range := st.1.high - st.1.low + 1
  let target := ((st.1.code - st.1.low + 1) * total - 1) / range
  match findSym st.2.alphabet counts target with
  | Option.none => Option.none
  | some s =>
    let c := st.2.cumRange s
    some (s,
      decScale payload 64
        ⟨st.1.low + range * c.1 / c.2.2,
          st.1.low + range * c.2.1 / c.2.2 - 1, st.1.code, st.1.pos⟩,
      st.2.update s)

/-- Decode a fixed number of symbols. -/
def decSymbols (payload : List Bool) :
    Nat → DecState × FreqModel → Option (List Int)
  | 0, _ => some []
  | n + 1, st =>
    match decSymbol payload st with
    | Option.none => Option.none
    | some r =>
      match decSymbols payload n r.2 with
      | Option.none => Option.none
      | some l => some (r.1 :: l)

/-- Modelled from the spec (§4.3): ArithmeticDecoder.decode_block, absent
from src: read the 32-bit symbol count, initialize the code register from
the next 32 bits (zero padded) and decode that many symbols; the whole
slice passed in is reported as consumed, matching the framing contract of
§8. -/
def arithDecodeBlock (m : FreqModel) (bits : List Bool) :
    Option (List Int × Nat) :=
  let count := bitarray_to_uint (bits.take 32)
  let payload := bits.drop 32
  let code :=
    bitarray_to_uint ((List.range 32).map fun i => payload.getD i false)
  match decSymbols payload count (⟨0, FULL - 1, code, 32⟩, m) with
  | Option.none => Option.none
  | some l => some (l, bits.length)

end Scl

/-- Modelled from the spec: compressors.lz77.LZ77Sequence, absent from src;
the (literal_count, match_length, match_offset) triple of §4.4. -/
structure LZ77Sequence where
  literal_count : Int
  match_length : Int
  match_offset : Int
deriving DecidableEq

namespace LzArithmeticEncoder

/-- LzArithmeticEncoder._encode_sequences_arithmetic (lz_arithmetic.py
lines 27 to 62): flatten the parse into [min_match_length] +
literal_counts + (match_length − min_match_length each) +
(match_offset − 1 each), arithmetic-code the flattened stream with an
order-0 adaptive model over its derived alphabet, Elias-delta-code the
alphabet, and frame alphabet and payload with a 64-bit and a 32-bit
length. min_match_length is that of the LZ77Encoder. -/
def encode_sequences_arithmetic (min_match_length : Int)
    (sequences : List LZ77Sequence) : List Bool :=
  let literal_counts := sequences.map fun l => l.literal_count
  let match_lengths_processed :=
    sequences.map fun l => l.match_length - min_match_length
  let match_offsets_processed := sequences.map fun l => l.match_offset - 1
  let combined := min_match_length ::
    (literal_counts ++ match_lengths_processed ++ match_offsets_processed)
  let combined_list := Scl.getAlphabet combined
  let combined_encoding :=
    Scl.arithEncodeBlock (Scl.adaptiveOrderK combined_list 0) combined
  let alphabet_encoding := Scl.eliasDeltaEncodeBlock combined_list
  Scl.uint_to_bitarray alphabet_encoding.length 64 ++ alphabet_encoding ++
    Scl.uint_to_bitarray combined_encoding.length 32 ++ combined_encoding

end LzArithmeticEncoder

namespace FilteredLzArithmetic

/-- FilteredLzArithmetic._encode_sequences_arithmetic
(filtered_lz_arithmetic.py lines 49 to 71): the same flattened stream, but
arithmetic-coded with an adaptive IID model whose initial counts are the
empirical counts of the stream (Frequencies of get_counts), and framed
with ONLY a 32-bit payload length: no alphabet segment is transmitted. -/
def encode_sequences_arithmetic (min_match_length : Int)
    (sequences : List LZ77Sequence) : List Bool :=
  let literal_counts := sequences.map fun l => l.literal_count
  let match_lengths_processed :=
    sequences.map fun l => l.match_length - min_match_length
  let match_offsets_processed := sequences.map fun l => l.match_offset - 1
  let combined := min_match_length ::
    (literal_counts ++ match_lengths_processed ++ match_offsets_processed)
  let combined_encoding :=
    Scl.arithEncodeBlock
      (Scl.adaptiveIID (Scl.getAlphabet combined) (Scl.getCountsList combined))
      combined
  Scl.uint_to_bitarray combined_encoding.length 32 ++ combined_encoding

end FilteredLzArithmetic

/-- The sequence-segment layout the spec states (§4.5), written from the
spec words: flatten the parse into [MIN_MATCH, literal_counts…,
(match_length − MIN_MATCH)…, (match_offset − 1)…]; entropy-code with an
order-0 adaptive model over the derived alphabet (the sorted set of
distinct values of that stream); transmit the Elias-delta-coded alphabet
in front; frame as [64-bit length of alphabet bits][alphabet bits]
[32-bit length of sequence bits][sequence bits]. -/
def specSequenceSegment (min_match : Int) (sequences : List LZ77Sequence) :
    List Bool :=
  let flattened := min_match ::
    (sequences.map (fun l => l.literal_count) ++
      sequences.map (fun l => l.match_length - min_match) ++
      sequences.map (fun l => l.match_offset - 1))
  let alphabet := Scl.getAlphabet flattened
  let alphabet_bits := Scl.eliasDeltaEncodeBlock alphabet
  let sequence_bits :=
    Scl.arithEncodeBlock (Scl.adaptiveOrderK alphabet 0) flattened
  Scl.uint_to_bitarray alphabet_bits.length 64 ++ alphabet_bits ++
    Scl.uint_to_bitarray sequence_bits.length 32 ++ sequence_bits

/-- The sequence segment FilteredLzArithmetic actually emits, stated
independently of its embedding: the §4.5 flattened stream, coded with an
adaptive IID model initialized with the empirical counts of the stream,
framed by a 32-bit payload length only (no alphabet segment). -/
def filteredLzSequenceSegment (min_match : Int)
    (sequences : List LZ77Sequence) : List Bool :=
  let flattened := min_match ::
    (sequences.map (fun l => l.literal_count) ++
      sequences.map (fun l => l.match_length - min_match) ++
      sequences.map (fun l => l.match_offset - 1))
  let sequence_bits := Scl.arithEncodeBlock
    (Scl.adaptiveIID (Scl.getAlphabet flattened)
      (Scl.getCountsList flattened)) flattened
  Scl.uint_to_bitarray sequence_bits.length 32 ++ sequence_bits

namespace LzArithmeticDecoder

/-- LzArithmeticDecoder._decode_lz77_arithmetic_sequences (lz_arithmetic.py
lines 91 to 166), faithful to the source bookkeeping of
num_bits_consumed: the source initializes it to
sequence_offset + sequence_block_size (line 125) and later adds
encoded_block_size_offset to it a second time (line 136). Failing assert
statements become errors. -/
def decode_lz77_arithmetic_sequences (bitarray : List Bool) :
    Except String (List LZ77Sequence × Nat) := do
  let encoded_alphabet_size := Scl.bitarray_to_uint (bitarray.take 64)
  let encoded_block_size_offset := 64 + encoded_alphabet_size
  let encoded_alphabet_bits := (bitarray.drop 64).take encoded_alphabet_size
  let sequence_offset := encoded_block_size_offset + 32
  let sequence_block_size :=
    Scl.bitarray_to_uint ((bitarray.drop encoded_block_size_offset).take 32)
  let num_bits_consumed := sequence_offset + sequence_block_size
  let sequence_bitarray :=
    (bitarray.drop sequence_offset).take sequence_block_size
  let ra ← match Scl.eliasDeltaDecodeBlock encoded_alphabet_bits with
    | some r => pure r
    | Option.none => throw "truncated bitstream"
  if ra.2 ≠ encoded_alphabet_size then
    throw "Expected to consume bits for alphabet decoding"
  let num_bits_consumed := num_bits_consumed + encoded_block_size_offset
  let rc ← match Scl.arithDecodeBlock (Scl.adaptiveOrderK ra.1 0)
      sequence_bitarray with
    | some r => pure r
    | Option.none => throw "truncated bitstream"
  let combined_decoded := rc.1
  if sequence_block_size ≠ rc.2 then throw "assert sequence_block_size"
  if ((combined_decoded.length : Int) - 1) % 3 ≠ 0 then
    throw "assert length mod 3"
  let num_sequences := (combined_decoded.length - 1) / 3
  let min_match_length := combined_decoded.getD 0 0
  let literal_counts := (combined_decoded.drop 1).take num_sequences
  let match_lengths :=
    ((combined_decoded.drop (1 + num_sequences)).take num_sequences).map
      fun l => l + min_match_length
  let match_offsets :=
    ((combined_decoded.drop (1 + 2 * num_sequences)).take num_sequences).map
      fun l => l + 1
  let lz77_sequences :=
    (literal_counts.zip (match_lengths.zip match_offsets)).map
      fun l => LZ77Sequence.mk l.1 l.2.1 l.2.2
  return (lz77_sequences, num_bits_consumed)

/-- LzArithmeticDecoder._decode_literals (lz_arithmetic.py lines 168 to
194): a 32-bit length, then, when nonzero, that many bits decoded with an
order-1 adaptive coder over the fixed alphabet 0..255. -/
def decode_literals (bitarray : List Bool) :
    Except String (List Int × Nat) := do
  let literal_size := Scl.bitarray_to_uint (bitarray.take 32)
  if literal_size = 0 then return ([], 32)
  let r ← match Scl.arithDecodeBlock
      (Scl.adaptiveOrderK ((List.range 256).map Int.ofNat) 1)
      ((bitarray.drop 32).take literal_size) with
    | some r => pure r
    | Option.none => throw "truncated bitstream"
  if r.2 ≠ literal_size then throw "assert num_literal_bits"
  return (r.1, 32 + r.2)

/-- LzArithmeticDecoder.decode_block (lz_arithmetic.py lines 196 to 205).
Line 204 passes `lz77_sequences` to execute_lz77_sequences, but no name
lz77_sequences is bound in decode_block (it is a local variable of
_decode_lz77_arithmetic_sequences), so reaching line 204 raises NameError:
every path of the method ends in an exception. -/
def decode_block (bitarray : List Bool) : Except String (List Int × Nat) := do
  let s ← decode_lz77_arithmetic_sequences bitarray
  let remaining_bitarray := bitarray.drop s.2
  let _ ← decode_literals remaining_bitarray
  throw "NameError: name lz77_sequences is not defined"

end LzArithmeticDecoder

namespace FilteredArithmetic

/-- FilteredArithmetic._arithmetic_encode (filtered_arithmetic.py lines 34
to 49): an AdaptiveOrderKFreqModel with k = self.order (the back-end
order) over the derived alphabet of the very data block being encoded. -/
def arithmetic_encode (order : Nat) (data : List Int) : List Bool :=
  Scl.arithEncodeBlock (Scl.adaptiveOrderK (Scl.getAlphabet data) order) data

/-- FilteredArithmetic.encode_block (filtered_arithmetic.py lines 52 to
95): the failing size assert becomes an error; with prepend_filter_type,
the filter types and the filtered channel are EACH encoded with
_arithmetic_encode (back-end order, derived alphabet) and concatenated;
otherwise the filter-type-prefixed stream is encoded as one block. The
module cannot even be loaded against this source tree: it imports
FilterHeuristic from png_tools.png_filters, which does not exist there,
and its constructor passes a heuristic keyword that CoreEncoder.__init__
does not accept; the embedding models the method bodies as written. -/
def encode_block (width height order : Nat) (prepend_filter_type : Bool)
    (data : List Int) : Except String (List Bool) := do
  if data.length ≠ width * height then throw "Expected block of size"
  if prepend_filter_type then
    let p := CoreEncoder.filter_channel width height data
    return arithmetic_encode order p.1 ++ arithmetic_encode order p.2
  return arithmetic_encode order
    (CoreEncoder.filter_channels width height [data])

end FilteredArithmetic

/-- CoreEncoder.__init__ (core_encoder.py lines 34 to 39) constructs
self.filter_type_encoder: an arithmetic coder over the fixed alphabet
[0, 1, 2, 3, 4] with a first-order adaptive model, as the spec asks for
the filter-type stream. No code path of FilteredArithmetic.encode_block
ever invokes it. -/
def CoreEncoder.filter_type_encoder (data : List Int) : List Bool :=
  Scl.arithEncodeBlock (Scl.adaptiveOrderK [0, 1, 2, 3, 4] 1) data

namespace PngFilters

/-- The five candidate residuals of choose_filter, by filter code
(0 none, 1 sub, 2 up, 3 average, 4 paeth). -/
def candidate (c : Nat) (curr prev : List Int) : List Int :=
  match c with
  | 0 => curr
  | 1 => (sub curr).1
  | 2 => (up curr prev).1
  | 3 => (average curr prev).1
  | _ => (paeth curr prev).1

/-- What the spec asserts of the value returned by choose_filter: it is
(k, residual of k) for a filter code k whose residual sum is smallest
among the five candidates, ties broken towards the smallest code. -/
def FilterChoiceGood (curr prev : List Int) (p : Int × List Int) : Prop :=
  ∃ k : Nat, k < 5 ∧ p.1 = k ∧ p.2 = candidate k curr prev ∧
    (∀ c, c < 5 →
      (candidate k curr prev).sum ≤ (candidate c curr prev).sum) ∧
    (∀ c, c < k →
      (candidate k curr prev).sum < (candidate c curr prev).sum)

/-- Invariant carried between the stages of choose_filter: after the
first j candidates were examined, the running best (t, f, s) is the
earliest minimal candidate among them. -/
def FilterStageInv (curr prev : List Int) (j : Nat) (t : Int)
    (f : List Int) (s : Int) : Prop :=
  ∃ k : Nat, k < j ∧ t = k ∧ f = candidate k curr prev ∧
    s = (candidate k curr prev).sum ∧
    (∀ c, c < j →
      (candidate k curr prev).sum ≤ (candidate c curr prev).sum) ∧
    (∀ c, c < k →
      (candidate k curr prev).sum < (candidate c curr prev).sum)

end PngFilters

/-!
Part 2: helper lemmas, then the claim theorems.
-/

namespace PngFilters

lemma getD_zero_nonneg (l : List Int) (h : ∀ x ∈ l, 0 ≤ x) (i : Nat) :
    0 ≤ l.getD i 0 := by
  rcases Nat.lt_or_ge i l.length with hi | hi
  · rw [List.getD_eq_getElem l 0 hi]
    exact h _ (l.getElem_mem hi)
  · rw [List.getD_eq_default l 0 hi]

lemma emod256_nonneg (a : Int) : 0 ≤ a % 256 :=
  Int.emod_nonneg a (by norm_num)

lemma candidate_sum_nonneg (curr prev : List Int)
    (hc : ∀ x ∈ curr, 0 ≤ x) (c : Nat) :
    0 ≤ (candidate c curr prev).sum := by
  apply List.sum_nonneg
  intro x hx
  match c with
  | 0 => exact hc x hx
  | 1 =>
    simp only [candidate, sub] at hx
    obtain ⟨i, hi, rfl⟩ := List.mem_map.mp hx
    split
    · exact getD_zero_nonneg curr hc 0
    · exact emod256_nonneg _
  | 2 =>
    simp only [candidate, up] at hx
    obtain ⟨i, hi, rfl⟩ := List.mem_map.mp hx
    exact emod256_nonneg _
  | 3 =>
    simp only [candidate, average] at hx
    obtain ⟨i, hi, rfl⟩ := List.mem_map.mp hx
    split <;> exact emod256_nonneg _
  | n + 4 =>
    simp only [candidate, paeth] at hx
    obtain ⟨i, hi, rfl⟩ := List.mem_map.mp hx
    split <;> exact emod256_nonneg _

lemma afterAvg_good (curr prev : List Int)
    (hnn : ∀ c : Nat, 0 ≤ (candidate c curr prev).sum)
    (t : Int) (f : List Int) (s : Int)
    (hInv : FilterStageInv curr prev 4 t f s) :
    FilterChoiceGood curr prev (afterAvg t f s curr prev) := by
  obtain ⟨k, hk, ht, hf, hs, hmin, htie⟩ := hInv
  unfold afterAvg
  split
  · rename_i h0
    refine ⟨k, by omega, ht, hf, ?_, htie⟩
    intro c hc
    rcases Nat.lt_or_ge c 4 with h | h
    · exact hmin c h
    · have h1 : (candidate k curr prev).sum = 0 := by rw [← hs]; exact h0
      rw [h1]; exact hnn c
  · dsimp only
    split
    · rename_i h0 hlt
      have hlt4 :
          (candidate 4 curr prev).sum < (candidate k curr prev).sum := by
        rw [← hs]; exact hlt
      refine ⟨4, by omega, rfl, rfl, ?_, ?_⟩
      · intro c hc
        rcases Nat.lt_or_ge c 4 with h | h
        · have := hmin c h
          omega
        · have hc4 : c = 4 := by omega
          subst hc4
          exact le_refl _
      · intro c hc
        have := hmin c (by omega)
        omega
    · rename_i h0 hge
      refine ⟨k, by omega, ht, hf, ?_, htie⟩
      intro c hc
      rcases Nat.lt_or_ge c 4 with h | h
      · exact hmin c h
      · have hc4 : c = 4 := by omega
        subst hc4
        have h4 : s ≤ (candidate 4 curr prev).sum := not_lt.mp hge
        rw [hs] at h4
        exact h4

lemma afterUp_good (curr prev : List Int)
    (hnn : ∀ c : Nat, 0 ≤ (candidate c curr prev).sum)
    (t : Int) (f : List Int) (s : Int)
    (hInv : FilterStageInv curr prev 3 t f s) :
    FilterChoiceGood curr prev (afterUp t f s curr prev) := by
  obtain ⟨k, hk, ht, hf, hs, hmin, htie⟩ := hInv
  unfold afterUp
  split
  · rename_i h0
    refine ⟨k, by omega, ht, hf, ?_, htie⟩
    intro c hc
    rcases Nat.lt_or_ge c 3 with h | h
    · exact hmin c h
    · have h1 : (candidate k curr prev).sum = 0 := by rw [← hs]; exact h0
      rw [h1]; exact hnn c
  · dsimp only
    split
    · rename_i h0 hlt
      have hlt3 :
          (candidate 3 curr prev).sum < (candidate k curr prev).sum := by
        rw [← hs]; exact hlt
      apply afterAvg_good curr prev hnn
      refine ⟨3, by omega, rfl, rfl, rfl, ?_, ?_⟩
      · intro c hc
        rcases Nat.lt_or_ge c 3 with h | h
        · have := hmin c h
          omega
        · have hc3 : c = 3 := by omega
          subst hc3
          exact le_refl _
      · intro c hc
        have := hmin c (by omega)
        omega
    · rename_i h0 hge
      apply afterAvg_good curr prev hnn
      refine ⟨k, by omega, ht, hf, hs, ?_, htie⟩
      intro c hc
      rcases Nat.lt_or_ge c 3 with h | h
      · exact hmin c h
      · have hc3 : c = 3 := by omega
        subst hc3
        have h3 : s ≤ (candidate 3 curr prev).sum := not_lt.mp hge
        rw [hs] at h3
        exact h3

lemma afterSub_good (curr prev : List Int)
    (hnn : ∀ c : Nat, 0 ≤ (candidate c curr prev).sum)
    (t : Int) (f : List Int) (s : Int)
    (hInv : FilterStageInv curr prev 2 t f s) :
    FilterChoiceGood curr prev (afterSub t f s curr prev) := by
  obtain ⟨k, hk, ht, hf, hs, hmin, htie⟩ := hInv
  unfold afterSub
  split
  · rename_i h0
    refine ⟨k, by omega, ht, hf, ?_, htie⟩
    intro c hc
    rcases Nat.lt_or_ge c 2 with h | h
    · exact hmin c h
    · have h1 : (candidate k curr prev).sum = 0 := by rw [← hs]; exact h0
      rw [h1]; exact hnn c
  · dsimp only
    split
    · rename_i h0 hlt
      have hlt2 :
          (candidate 2 curr prev).sum < (candidate k curr prev).sum := by
        rw [← hs]; exact hlt
      apply afterUp_good curr prev hnn
      refine ⟨2, by omega, rfl, rfl, rfl, ?_, ?_⟩
      · intro c hc
        rcases Nat.lt_or_ge c 2 with h | h
        · have := hmin c h
          omega
        · have hc2 : c = 2 := by omega
          subst hc2
          exact le_refl _
      · intro c hc
        have := hmin c (by omega)
        omega
    · rename_i h0 hge
      apply afterUp_good curr prev hnn
      refine ⟨k, by omega, ht, hf, hs, ?_, htie⟩
      intro c hc
      rcases Nat.lt_or_ge c 2 with h | h
      · exact hmin c h
      · have hc2 : c = 2 := by omega
        subst hc2
        have h2 : s ≤ (candidate 2 curr prev).sum := not_lt.mp hge
        rw [hs] at h2
        exact h2

end PngFilters

/-!
Sanity checks: the embedded definitions reproduce the test vectors of
png_filters.py, core_encoder.py and filtered_zlib.py, and the
spec-modelled library round-trips.
-/

lemma python_emod_check : ((-5 : Int) % 256) = 251 := by decide

lemma python_floordiv_check : ((-7 : Int) / 2) = -4 := by decide

lemma repo_test_choose_filter_sub :
    PngFilters.choose_filter [1, 1, 1, 1] [255, 255, 255, 255]
      = (1, [1, 0, 0, 0]) := by decide

lemma repo_test_choose_filter_average :
    PngFilters.choose_filter [4, 10, 30] [8, 16, 50]
      = (3, [0, 0, 0]) := by decide

lemma repo_test_choose_filter_up :
    PngFilters.choose_filter [255, 255, 255] [255, 255, 255]
      = (2, [0, 0, 0]) := by decide

lemma repo_test_choose_filter_none :
    PngFilters.choose_filter [0, 0, 0, 0] [255, 255, 255, 255]
      = (0, [0, 0, 0, 0]) := by decide

lemma repo_test_sub_modulo :
    PngFilters.sub [255, 128, 71, 18] = ([255, 129, 199, 203], 1) := by
  decide

lemma repo_test_filter_channel :
    CoreEncoder.filter_channel 3 4 [1, 2, 3, 5, 5, 5, 5, 5, 5, 0, 1, 0]
      = ([1, 4, 2, 0], [1, 1, 1, 4, 0, 0, 0, 0, 0, 0, 1, 0]) := by decide

lemma repo_test_filter_channels :
    CoreEncoder.filter_channels 3 2
      [[4, 8, 25, 2, 5, 15], [4, 8, 25, 2, 5, 15], [4, 8, 25, 2, 5, 15]]
      = [1, 4, 4, 17, 3, 0, 0, 0, 1, 4, 4, 17, 3, 0, 0, 0,
         1, 4, 4, 17, 3, 0, 0, 0] := by decide

lemma channelify_complete_block_check :
    CoreEncoder.channelify 1 2 [1, 2, 3, 4, 5, 6]
      = Except.ok [[1, 2], [3, 4], [5, 6]] := rfl

lemma channelify_too_few_chunks_check :
    CoreEncoder.channelify 1 2 [1, 2, 3, 4]
      = Except.error "Expected only 3 - 4 channels" := rfl

lemma scl_uint_bits_check :
    Scl.uint_to_bitarray 5 4 = [false, true, false, true]
    ∧ Scl.bitarray_to_uint [false, true, false, true] = 5 := by decide

lemma scl_alphabet_check :
    Scl.getAlphabet [3, 1, 6, 0, 1, 3] = [0, 1, 3, 6]
    ∧ Scl.getCountsList [3, 1, 6, 0, 1, 3] = [1, 2, 2, 1] := by decide

lemma scl_elias_roundtrip_check :
    (Scl.eliasDeltaDecodeBlock (Scl.eliasDeltaEncodeBlock [0, 1, 3, 6]))
      = some ([0, 1, 3, 6],
        (Scl.eliasDeltaEncodeBlock [0, 1, 3, 6]).length) := by decide

lemma scl_arith_roundtrip_check :
    (Scl.arithDecodeBlock (Scl.adaptiveOrderK [0, 1, 3, 6] 0)
      (Scl.arithEncodeBlock (Scl.adaptiveOrderK [0, 1, 3, 6] 0)
        [3, 1, 6, 0])).map Prod.fst = some [3, 1, 6, 0] := by decide

lemma except_bind_toOption_none {α β : Type} (x : Except String α)
    (f : α → Except String β) (h : ∀ a, (f a).toOption = Option.none) :
    (x >>= f).toOption = Option.none := by
  cases x with
  | error e => rfl
  | ok a => simpa using h a

/-- C1: the filtering stage is NOT round-trip invertible in this source:
CoreDecoder._reverse_filter_channels is an unimplemented TODO stub that
returns the empty list, so on the filter output of the 3 by 4 channel of
the own test, the decoder returns [] instead of the original
twelve bytes. -/
theorem reverse_filter_channels_stub :
    CoreDecoder.reverse_filter_channels
        (CoreEncoder.filter_channels 3 4
          [[1, 2, 3, 5, 5, 5, 5, 5, 5, 0, 1, 0]]) = []
    ∧ [1, 2, 3, 5, 5, 5, 5, 5, 5, 0, 1, 0] ≠ ([] : List Int) :=
  ⟨rfl, by decide⟩

/-- C2: the claim holds for CoreEncoder._filter_channel but not for
FilteredZlib._filter_channels, whose prev condition is inverted: on the
one-column channel [5, 7] (w = 1, h = 2) the FilteredZlib loop uses the
LAST row as prev of row 0 and zeros as prev of row 1, producing
[3, 2, 0, 7], while the claimed prev handling (as CoreEncoder implements
it) produces [0, 5, 2, 2]. -/
theorem filtered_zlib_prev_inverted :
    FilteredZlib.filter_channels 1 2 [[5, 7]] = [3, 2, 0, 7]
    ∧ CoreEncoder.filter_channels 1 2 [[5, 7]] = [0, 5, 2, 2]
    ∧ FilteredZlib.filter_channels 1 2 [[5, 7]]
        ≠ CoreEncoder.filter_channels 1 2 [[5, 7]] :=
  ⟨by decide, by decide, by decide⟩

/-- C3: LzArithmeticDecoder.decode_block never returns a decoded block:
its final statement references the unbound name lz77_sequences (NameError),
so every execution path ends in an exception and decoding is not the
inverse of encoding on any input. -/
theorem lz_decode_block_never_succeeds (bitarray : List Bool) :
    (LzArithmeticDecoder.decode_block bitarray).toOption = Option.none := by
  unfold LzArithmeticDecoder.decode_block
  apply except_bind_toOption_none
  intro s
  dsimp only
  apply except_bind_toOption_none
  intro l
  rfl

set_option maxRecDepth 1000000 in
/-- C5, counterexample: FilteredLzArithmetic._encode_sequences_arithmetic
does not produce the claimed segment layout: on the single-sequence parse
(literal_count 1, match_length 9, match_offset 1) with MIN_MATCH = 3 its
output differs from the §4.5 frame (it has no 64-bit alphabet length, no
alphabet bits, and a differently seeded coder). -/
theorem filtered_lz_segment_not_spec_format :
    FilteredLzArithmetic.encode_sequences_arithmetic 3
        [LZ77Sequence.mk 1 9 1]
      ≠ specSequenceSegment 3 [LZ77Sequence.mk 1 9 1] := by decide

/-- C5, amended: LzArithmeticEncoder._encode_sequences_arithmetic emits
exactly the claimed layout (64-bit alphabet-bits length, Elias-delta-coded
sorted distinct alphabet, 32-bit sequence-bits length, order-0 coded
flattened stream), while FilteredLzArithmetic._encode_sequences_arithmetic
emits only a 32-bit payload length followed by the flattened stream coded
with an adaptive IID model seeded with the empirical stream counts. -/
theorem sequence_segment_formats (min_match_length : Int)
    (sequences : List LZ77Sequence) :
    LzArithmeticEncoder.encode_sequences_arithmetic min_match_length
        sequences
      = specSequenceSegment min_match_length sequences
    ∧ FilteredLzArithmetic.encode_sequences_arithmetic min_match_length
        sequences
      = filteredLzSequenceSegment min_match_length sequences :=
  ⟨rfl, rfl⟩

/-- C8: paethPredictor computes p = a + b − c and returns a when
|p−a| ≤ |p−b| and |p−a| ≤ |p−c|, else b when |p−b| ≤ |p−c|, else c:
ties go to left, then upper, then upper_left. -/
theorem paethPredictor_spec (a b c : Int) :
    PngFilters.paethPredictor a b c =
      if |a + b - c - a| ≤ |a + b - c - b| ∧ |a + b - c - a| ≤ |a + b - c - c|
        then a
      else if |a + b - c - b| ≤ |a + b - c - c| then b
      else c := rfl

lemma channelify_chunk_count (w h : Nat) (data : List Int) :
    ((List.range (data.length / (w * h))).map fun i =>
      (data.drop (i * (w * h))).take (w * h)).length
      = data.length / (w * h) := by
  simp

lemma channelify_ok_of (w h : Nat) (data : List Int)
    (h3 : 3 ≤ data.length / (w * h)) (h4 : data.length / (w * h) ≤ 4) :
    CoreEncoder.channelify w h data
      = Except.ok ((List.range (data.length / (w * h))).map fun i =>
          (data.drop (i * (w * h))).take (w * h)) := by
  unfold CoreEncoder.channelify
  rw [if_neg]
  rw [channelify_chunk_count]
  omega

lemma channelify_error_of (w h : Nat) (data : List Int)
    (hout : data.length / (w * h) < 3 ∨ 4 < data.length / (w * h)) :
    CoreEncoder.channelify w h data
      = Except.error "Expected only 3 - 4 channels" := by
  unfold CoreEncoder.channelify
  rw [if_pos]
  rw [channelify_chunk_count]
  omega

/-- C9: with positive w·h, _channelify raises exactly when the number of
complete w·h-byte chunks, len / (w·h), lies outside 3..4; inside that
range it returns those chunks, in input order. -/
theorem channelify_error_iff (w h : Nat) (data : List Int)
    (hwh : 0 < w * h) :
    ((∃ e, CoreEncoder.channelify w h data = Except.error e)
      ↔ data.length / (w * h) < 3 ∨ 4 < data.length / (w * h))
    ∧ (3 ≤ data.length / (w * h) → data.length / (w * h) ≤ 4 →
      CoreEncoder.channelify w h data
        = Except.ok ((List.range (data.length / (w * h))).map fun i =>
            (data.drop (i * (w * h))).take (w * h))) := by
  constructor
  · constructor
    · rintro ⟨e, he⟩
      by_contra hcon
      push_neg at hcon
      rw [channelify_ok_of w h data hcon.1 hcon.2] at he
      exact Except.noConfusion he
    · intro hout
      exact ⟨_, channelify_error_of w h data hout⟩
  · exact channelify_ok_of w h data

/-- Witness for C9 at w = 1, h = 2 and a 7-byte block (three complete
chunks plus one trailing byte). -/
theorem channelify_error_iff_witness :
    0 < 1 * 2
    ∧ (((∃ e, CoreEncoder.channelify 1 2 [1, 2, 3, 4, 5, 6, 7]
          = Except.error e)
        ↔ ([1, 2, 3, 4, 5, 6, 7] : List Int).length / (1 * 2) < 3
          ∨ 4 < ([1, 2, 3, 4, 5, 6, 7] : List Int).length / (1 * 2))
      ∧ (3 ≤ ([1, 2, 3, 4, 5, 6, 7] : List Int).length / (1 * 2) →
          ([1, 2, 3, 4, 5, 6, 7] : List Int).length / (1 * 2) ≤ 4 →
        CoreEncoder.channelify 1 2 [1, 2, 3, 4, 5, 6, 7]
          = Except.ok ((List.range
              (([1, 2, 3, 4, 5, 6, 7] : List Int).length / (1 * 2))).map
                fun i =>
              (([1, 2, 3, 4, 5, 6, 7] : List Int).drop (i * (1 * 2))).take
                (1 * 2)))) :=
  ⟨by decide, channelify_error_iff 1 2 [1, 2, 3, 4, 5, 6, 7] (by decide)⟩

lemma flatten_range_slices (data : List Int) (cs : Nat) (n : Nat) :
    ((List.range n).map fun i =>
      (data.drop (i * cs)).take cs).flatten = data.take (n * cs) := by
  induction n with
  | zero => simp
  | succ n ih =>
    rw [List.range_succ, List.map_append, List.flatten_append]
    simp only [List.map_cons, List.map_nil, List.flatten_cons,
      List.flatten_nil, List.append_nil]
    rw [ih, Nat.succ_mul, List.take_add]

/-- C10: when the block length is not a multiple of w·h but holds 3 or 4
complete chunks, _channelify succeeds, silently dropping the trailing
len mod (w·h) bytes: the concatenation of the returned chunks is the
proper prefix of the input of length len − len mod (w·h). -/
theorem channelify_discards_partial_chunk (w h : Nat) (data : List Int)
    (hwh : 0 < w * h)
    (h3 : 3 ≤ data.length / (w * h)) (h4 : data.length / (w * h) ≤ 4)
    (hrem : data.length % (w * h) ≠ 0) :
    ∃ chunks, CoreEncoder.channelify w h data = Except.ok chunks
      ∧ chunks.flatten = data.take (data.length - data.length % (w * h))
      ∧ chunks.flatten.length < data.length := by
  have hdm := Nat.div_add_mod data.length (w * h)
  have hmlt := Nat.mod_lt data.length hwh
  refine ⟨_, channelify_ok_of w h data h3 h4, ?_, ?_⟩
  · rw [flatten_range_slices]
    set q := data.length / (w * h) with hq
    set r := data.length % (w * h) with hr
    congr 1
    rw [Nat.mul_comm]
    omega
  · rw [flatten_range_slices, List.length_take]
    set q := data.length / (w * h) with hq
    set r := data.length % (w * h) with hr
    have hle : q * (w * h) ≤ data.length := by rw [Nat.mul_comm]; omega
    rw [min_eq_left hle, Nat.mul_comm]
    omega

/-- Witness for C10 at w = 1, h = 2 and a 7-byte block. -/
theorem channelify_discards_partial_chunk_witness :
    0 < 1 * 2
    ∧ 3 ≤ ([1, 2, 3, 4, 5, 6, 7] : List Int).length / (1 * 2)
    ∧ ([1, 2, 3, 4, 5, 6, 7] : List Int).length / (1 * 2) ≤ 4
    ∧ ([1, 2, 3, 4, 5, 6, 7] : List Int).length % (1 * 2) ≠ 0
    ∧ (∃ chunks,
        CoreEncoder.channelify 1 2 [1, 2, 3, 4, 5, 6, 7] = Except.ok chunks
        ∧ chunks.flatten = ([1, 2, 3, 4, 5, 6, 7] : List Int).take
            (([1, 2, 3, 4, 5, 6, 7] : List Int).length
              - ([1, 2, 3, 4, 5, 6, 7] : List Int).length % (1 * 2))
        ∧ chunks.flatten.length < ([1, 2, 3, 4, 5, 6, 7] : List Int).length) :=
  ⟨by decide, by decide, by decide, by decide,
    channelify_discards_partial_chunk 1 2 [1, 2, 3, 4, 5, 6, 7]
      (by decide) (by decide) (by decide) (by decide)⟩

/-- C4: on byte scanlines curr and prev of equal length, choose_filter
returns the pair (filter code k, residual of k) where the residual sum of
k (residual bytes summed as unsigned values) is ≤ the residual sum of
every one of the five candidates examined in order 0..4, and every
earlier filter code has a strictly larger sum (ties go to the smallest
code); moreover the zero short-circuit on the None candidate returns
(0, curr) directly. -/
theorem choose_filter_minimal_sum (curr prev : List Int)
    (hlen : curr.length = prev.length)
    (hcb : ∀ x ∈ curr, 0 ≤ x ∧ x < 256)
    (hpb : ∀ x ∈ prev, 0 ≤ x ∧ x < 256) :
    PngFilters.FilterChoiceGood curr prev
      (PngFilters.choose_filter curr prev)
    ∧ (curr.sum = 0 → PngFilters.choose_filter curr prev = (0, curr)) := by
  have hnn : ∀ c : Nat, 0 ≤ (PngFilters.candidate c curr prev).sum :=
    PngFilters.candidate_sum_nonneg curr prev (fun x hx => (hcb x hx).1)
  constructor
  · unfold PngFilters.choose_filter
    split
    · rename_i h0
      refine ⟨0, by omega, rfl, rfl, ?_, ?_⟩
      · intro c hc5
        have h1 : (PngFilters.candidate 0 curr prev).sum = 0 := h0
        rw [h1]
        exact hnn c
      · intro c hc0
        exact absurd hc0 (Nat.not_lt_zero c)
    · rename_i h0
      dsimp only
      split
      · rename_i hlt
        apply PngFilters.afterSub_good curr prev hnn
        refine ⟨1, by omega, rfl, rfl, rfl, ?_, ?_⟩
        · intro c hc2
          interval_cases c
          · exact le_of_lt hlt
          · exact le_refl _
        · intro c hc1
          interval_cases c
          exact hlt
      · rename_i hge
        apply PngFilters.afterSub_good curr prev hnn
        refine ⟨0, by omega, rfl, rfl, rfl, ?_, ?_⟩
        · intro c hc2
          interval_cases c
          · exact le_refl _
          · exact not_lt.mp hge
        · intro c hc0
          exact absurd hc0 (Nat.not_lt_zero c)
  · intro h0
    simp [PngFilters.choose_filter, h0]

/-- Witness for C4 at curr = [1, 1, 1, 1], prev = [255, 255, 255, 255]
(the own test_choose_filter_sub vector). -/
theorem choose_filter_minimal_sum_witness :
    ([1, 1, 1, 1] : List Int).length = ([255, 255, 255, 255] : List Int).length
    ∧ (∀ x ∈ ([1, 1, 1, 1] : List Int), 0 ≤ x ∧ x < 256)
    ∧ (∀ x ∈ ([255, 255, 255, 255] : List Int), 0 ≤ x ∧ x < 256)
    ∧ (PngFilters.FilterChoiceGood [1, 1, 1, 1] [255, 255, 255, 255]
        (PngFilters.choose_filter [1, 1, 1, 1] [255, 255, 255, 255])
      ∧ (([1, 1, 1, 1] : List Int).sum = 0 →
        PngFilters.choose_filter [1, 1, 1, 1] [255, 255, 255, 255]
          = (0, [1, 1, 1, 1]))) :=
  ⟨by decide, by decide, by decide,
    choose_filter_minimal_sum [1, 1, 1, 1] [255, 255, 255, 255]
      (by decide) (by decide) (by decide)⟩

set_option maxRecDepth 1000000 in
/-- C6: with prepend_filter_type, FilteredArithmetic.encode_block encodes
the filter-type stream with _arithmetic_encode — the back-end coder of
order self.order (here 0) over the DERIVED alphabet of that stream — and
not with the order-1 {0,1,2,3,4} filter_type_encoder that
CoreEncoder.__init__ builds: on the own 4 by 4 test block the
filter types are [1, 3, 1, 0], their derived alphabet is [0, 1, 3], and
the emitted bits differ from the order-1 fixed-alphabet encoding the
claim (and §4.7) require. -/
theorem filtered_arithmetic_filter_type_coder_mismatch :
    FilteredArithmetic.encode_block 4 4 0 true
        [1, 2, 3, 4, 255, 254, 253, 252, 67, 189, 53, 90, 39, 82, 102, 85]
      = Except.ok
          (FilteredArithmetic.arithmetic_encode 0 [1, 3, 1, 0] ++
            FilteredArithmetic.arithmetic_encode 0
              (CoreEncoder.filter_channel 4 4
                [1, 2, 3, 4, 255, 254, 253, 252, 67, 189, 53, 90,
                 39, 82, 102, 85]).2)
    ∧ FilteredArithmetic.arithmetic_encode 0 [1, 3, 1, 0]
        ≠ CoreEncoder.filter_type_encoder [1, 3, 1, 0]
    ∧ Scl.getAlphabet [1, 3, 1, 0] = [0, 1, 3] :=
  ⟨rfl, by decide, by decide⟩

set_option maxRecDepth 1000000 in
/-- C7: on the well-formed sequence segment encoding the single-sequence
parse (1, 9, 1) with MIN_MATCH 3, _decode_lz77_arithmetic_sequences
succeeds, recovers the sequences and the L = 1 + 3N stream shape, but
reports 232 consumed bits: the segment is
64 + 15 (alphabet bits) + 32 + 42 (sequence bits) = 153 bits long, and the
source adds encoded_block_size_offset = 64 + 15 a second time, so the
reported count exceeds the claimed 64 + A + 32 + S by 79. -/
theorem decode_sequences_overcounts_consumed_bits :
    LzArithmeticDecoder.decode_lz77_arithmetic_sequences
        (LzArithmeticEncoder.encode_sequences_arithmetic 3
          [LZ77Sequence.mk 1 9 1])
      = Except.ok ([LZ77Sequence.mk 1 9 1], 232)
    ∧ (LzArithmeticEncoder.encode_sequences_arithmetic 3
        [LZ77Sequence.mk 1 9 1]).length = 153
    ∧ (232 : Nat) ≠ 153 :=
  ⟨rfl, by decide, by decide⟩
